import Mathlib

/-!
Verification development for the Token Unlocks Dashboard (`src/main.py`).

The dashboard pipeline is embedded shallowly:

* a pandas `DataFrame` of unlock records becomes a `List Row`;
* the float columns `amount` and `value_usd` become exact rationals `ℚ`
  (the pandas code computes with IEEE doubles; the properties proved here
  are about the algebra of the pipeline, and the one place where float
  special values matter, division by a zero weekly total, is modelled
  explicitly, see `relabelsToOther`);
* `groupby(...).agg('sum').reset_index()` becomes grouping over the list of
  distinct keys (pandas additionally sorts the group keys; every property
  proved below is insensitive to row order, so the key list is kept in
  first-traversal order);
* `datetime` values parsed by `strptime(s, "%Y-%m-%dT%H:%M:%SZ")` become a
  `DateTime` record of the six parsed fields.
-/

namespace Unlocks

/-- Timestamp as parsed by `datetime.strptime(s, "%Y-%m-%dT%H:%M:%SZ")` in
`process_token_data` (src/main.py lines 43-44). -/
structure DateTime where
  year : ℕ
  month : ℕ
  day : ℕ
  hour : ℕ
  minute : ℕ
  second : ℕ
deriving DecidableEq

/-- Calendar date, the value of Python `.dt.date` used by the date-range
filter in `main` (src/main.py lines 194-195). -/
structure Date where
  year : ℕ
  month : ℕ
  day : ℕ
deriving DecidableEq

/-- Date part of a timestamp (`Timestamp.date()` in pandas). -/
def toDate (dt : DateTime) : Date :=
  { year := dt.year, month := dt.month, day := dt.day }

/-- Order on calendar dates: Python compares `datetime.date` values
lexicographically by (year, month, day). -/
def dateLeP (a b : Date) : Prop :=
  a.year < b.year ∨
    (a.year = b.year ∧ (a.month < b.month ∨ (a.month = b.month ∧ a.day ≤ b.day)))

instance (a b : Date) : Decidable (dateLeP a b) := by
  unfold dateLeP
  infer_instance

/-- Gregorian leap-year test. -/
def isLeapYear (y : ℕ) : Bool :=
  y % 4 == 0 && (y % 100 != 0 || y % 400 == 0)

/-- Length of a month in the proleptic Gregorian calendar. -/
def daysInMonth (y m : ℕ) : ℕ :=
  if m = 2 then (if isLeapYear y then 29 else 28)
  else if m = 4 ∨ m = 6 ∨ m = 9 ∨ m = 11 then 30
  else 31

/-- One-based ordinal of a day within its year. -/
def dayOfYear (y m d : ℕ) : ℕ :=
  d + ((List.range (m - 1)).map (fun i => daysInMonth y (i + 1))).sum

/-- Number of days in the years strictly before year `y`
(proleptic Gregorian). -/
def daysBeforeYear (y : ℕ) : ℕ :=
  365 * (y - 1) + (y - 1) / 4 - (y - 1) / 100 + (y - 1) / 400

/-- Proleptic-Gregorian ordinal of a date; day 1 is 0001-01-01, a Monday.
This matches Python `datetime.date.toordinal`. -/
def ordinalDay (y m d : ℕ) : ℕ := daysBeforeYear y + dayOfYear y m d

/-- ISO weekday of a date: Monday = 1, ..., Sunday = 7. -/
def isoWeekday (y m d : ℕ) : ℕ := (ordinalDay y m d - 1) % 7 + 1

/-- Number of ISO weeks in year `y`: 53 when January 1 falls on a Thursday,
or on a Wednesday in a leap year; otherwise 52. -/
def isoWeeksInYear (y : ℕ) : ℕ :=
  if isoWeekday y 1 1 = 4 ∨ (isLeapYear y = true ∧ isoWeekday y 1 1 = 3) then 53
  else 52

/-- ISO 8601 week number of a date, the value rendered by `strftime("%V")`. -/
def isoWeekNumber (y m d : ℕ) : ℕ :=
  let w := (dayOfYear y m d + 10 - isoWeekday y m d) / 7
  if w = 0 then isoWeeksInYear (y - 1)
  else if isoWeeksInYear y < w then 1
  else w

/-- Zero-padded two-digit numeral, as `%V` renders week numbers. -/
def pad2 (n : ℕ) : String := if n < 10 then "0" ++ toString n else toString n

/-- Zero-padded four-digit numeral, as `%Y` renders years. -/
def pad4 (n : ℕ) : String :=
  if n < 10 then "000" ++ toString n
  else if n < 100 then "00" ++ toString n
  else if n < 1000 then "0" ++ toString n
  else toString n

/-- Week identifier `f"{start_date.strftime('%Y-W%V')}"` (src/main.py
line 46): the calendar year of the timestamp joined with its ISO week
number. -/
def weekId (dt : DateTime) : String :=
  pad4 dt.year ++ "-W" ++ pad2 (isoWeekNumber dt.year dt.month dt.day)

/-- One allocation entry of an emission week, keeping the two fields read by
`process_token_data` (src/main.py lines 49-50). -/
structure Allocation where
  unlockAmount : ℚ
  unlockValue : ℚ
deriving DecidableEq

/-- One week of the `/v2/emission` API answer, keeping the fields read by
`process_token_data` (src/main.py lines 43-48). -/
structure EmissionWeek where
  startDate : DateTime
  endDate : DateTime
  allocations : List Allocation
deriving DecidableEq

/-- One row of the flattened unlock table
`{token, week, start_date, end_date, amount, value_usd}`
(src/main.py lines 52-59). -/
structure Row where
  token : String
  week : String
  start_date : DateTime
  end_date : DateTime
  amount : ℚ
  value_usd : ℚ
deriving DecidableEq

/-- Embedding of `process_token_data` (src/main.py lines 37-61): every
allocation of every emission week yields one row of the table. -/
def process_token_data (emission_data : List EmissionWeek) (token_symbol : String) :
    List Row :=
  emission_data.flatMap fun week =>
    week.allocations.map fun allocation =>
      { token := token_symbol
        week := weekId week.startDate
        start_date := week.startDate
        end_date := week.endDate
        amount := allocation.unlockAmount
        value_usd := allocation.unlockValue }

/-- One row of the intermediate table `weekly_totals` (src/main.py
lines 67-70): the `(week, token)` key with the summed `value_usd` and
`amount`. The later merge adds the columns `total_week_value` and
`percentage`; those are modelled as the functions `total_week_value` and
`percentage` below, keyed by the row. -/
structure WTRow where
  week : String
  token : String
  value_usd : ℚ
  amount : ℚ
deriving DecidableEq

/-- Grouping key of a `weekly_totals` row. -/
def wkey (r : WTRow) : String × String := (r.week, r.token)

/-- Sum of `value_usd` over the rows of one `(week, token)` group. -/
def aggVal (rows : List WTRow) (k : String × String) : ℚ :=
  ((rows.filter fun r => decide (wkey r = k)).map (fun r => r.value_usd)).sum

/-- Sum of `amount` over the rows of one `(week, token)` group. -/
def aggAmt (rows : List WTRow) (k : String × String) : ℚ :=
  ((rows.filter fun r => decide (wkey r = k)).map (fun r => r.amount)).sum

/-- Embedding of `groupby(['week', 'token']).agg({'value_usd': 'sum',
'amount': 'sum'}).reset_index()` (src/main.py lines 67-70 and 84-87):
one output row per distinct `(week, token)` key, with summed columns. -/
def groupWT (rows : List WTRow) : List WTRow :=
  ((rows.map wkey).dedup).map fun k =>
    { week := k.1, token := k.2, value_usd := aggVal rows k, amount := aggAmt rows k }

/-- Projection of a raw row onto the columns aggregated by the first
groupby of `preprocess_data`. -/
def toWT (r : Row) : WTRow :=
  { week := r.week, token := r.token, value_usd := r.value_usd, amount := r.amount }

/-- Embedding of the table `weekly_totals` (src/main.py lines 67-70). -/
def weekly_totals (data : List Row) : List WTRow :=
  groupWT (data.map toWT)

/-- Embedding of the column `total_week_value` obtained from `week_sums`
(src/main.py lines 72-76): the sum of the aggregated `value_usd` over the
rows of `weekly_totals` sharing the week, attached to every row of that
week by the merge on `week`. -/
def total_week_value (data : List Row) (w : String) : ℚ :=
  (((weekly_totals data).filter fun r => decide (r.week = w)).map
    (fun r => r.value_usd)).sum

/-- Embedding of the column `percentage` (src/main.py line 77). When the
weekly total is zero the float column holds NaN or an infinity; the
rational convention `x / 0 = 0` stands in for those values here, and no
theorem below depends on the difference (a NaN, an infinite and the junk
rational percentage all fail to sum to 100 and all make the week total
zero, the case the amended claims exclude). -/
def percentage (data : List Row) (r : WTRow) : ℚ :=
  r.value_usd / total_week_value data r.week * 100

/-- Truth value of the float comparison `percentage < 5` of src/main.py
line 79. For a nonzero weekly total this is the exact rational comparison.
For a zero total the float `percentage` is `+inf` (positive `value_usd`),
NaN (zero `value_usd`) or `-inf` (negative `value_usd`), so the comparison
with 5 holds exactly when `value_usd` is negative. -/
def relabelsToOther (value total : ℚ) : Bool :=
  if total = 0 then decide (value < 0) else decide (value / total * 100 < 5)

/-- Embedding of the token relabeling (src/main.py lines 78-81) applied to
one row of `weekly_totals`. -/
def relabelToken (data : List Row) (r : WTRow) : WTRow :=
  if relabelsToOther r.value_usd (total_week_value data r.week) then
    { r with token := "OTHER" }
  else r

/-- The table `weekly_totals` after the relabeling of src/main.py
lines 78-81. -/
def relabeled_totals (data : List Row) : List WTRow :=
  (weekly_totals data).map (relabelToken data)

/-- Embedding of `grouped_data` (src/main.py lines 84-87): the relabeled
table re-aggregated by `(week, token)`. -/
def grouped_data (data : List Row) : List WTRow :=
  groupWT (relabeled_totals data)

/-- Embedding of `dates_data` (src/main.py line 90): the distinct
`(week, start_date, end_date)` triples of the input table. -/
def dates_data (data : List Row) : List (String × DateTime × DateTime) :=
  (data.map fun r => (r.week, r.start_date, r.end_date)).dedup

/-- Rows of `dates_data` matching one week, as the merge on `week` pairs
them (src/main.py line 91). -/
def datesFor (data : List Row) (w : String) : List (String × DateTime × DateTime) :=
  (dates_data data).filter fun d => decide (d.1 = w)

/-- Row of `final_data` built from one `grouped_data` row and one matching
`dates_data` row by the merge of src/main.py line 91. -/
def mkFinalRow (g : WTRow) (d : String × DateTime × DateTime) : Row :=
  { token := g.token, week := g.week, start_date := d.2.1, end_date := d.2.2
    amount := g.amount, value_usd := g.value_usd }

/-- Embedding of `preprocess_data` (src/main.py lines 64-93): the returned
`final_data`, obtained by merging `grouped_data` with `dates_data` on the
`week` column. The pandas merge pairs every left row with every matching
right row, in order. -/
def preprocess_data (data : List Row) : List Row :=
  (grouped_data data).flatMap fun g => (datesFor data g.week).map (mkFinalRow g)

/-- Sum of `value_usd` over the rows of a table carrying a given week
identifier. -/
def raw_week_value (data : List Row) (w : String) : ℚ :=
  ((data.filter fun r => decide (r.week = w)).map (fun r => r.value_usd)).sum

/-- Sum of `amount` over the rows of a table carrying a given week
identifier. -/
def raw_week_amount (data : List Row) (w : String) : ℚ :=
  ((data.filter fun r => decide (r.week = w)).map (fun r => r.amount)).sum

/-- Weekly sum of an arbitrary numeric column of a `weekly_totals`-shaped
table. -/
def wt_week_sum (rows : List WTRow) (f : WTRow → ℚ) (w : String) : ℚ :=
  ((rows.filter fun r => decide (r.week = w)).map f).sum

/-- Sum of the `percentage` column over the rows of `weekly_totals` sharing
a week (src/main.py line 77). -/
def week_pct_sum (data : List Row) (w : String) : ℚ :=
  (((weekly_totals data).filter fun r => decide (r.week = w)).map
    (percentage data)).sum

/-- Hypothesis under which the merge of src/main.py line 91 is one-to-one:
each week identifier of the input table comes with a single distinct
`(start_date, end_date)` pair. -/
def uniqueWeekDates (data : List Row) : Prop :=
  ∀ d1 ∈ dates_data data, ∀ d2 ∈ dates_data data, d1.1 = d2.1 → d1 = d2

instance (data : List Row) : Decidable (uniqueWeekDates data) := by
  unfold uniqueWeekDates
  infer_instance

/-- Predicate of the date-range filter of `main` (src/main.py
lines 193-196): the week starts no earlier than the selected start and
ends no later than the selected end. -/
def inRange (s e : Date) (r : Row) : Bool :=
  decide (dateLeP s (toDate r.start_date)) && decide (dateLeP (toDate r.end_date) e)

/-- Embedding of `filtered_data` (src/main.py lines 193-196). -/
def date_filter (data : List Row) (s e : Date) : List Row :=
  data.filter (inRange s e)

/-- Outcome of `main` after the date filter (src/main.py lines 198-260):
either the early return behind `st.warning("No data available for the
selected date range.")`, or the dashboard rendered from the filtered
table. -/
inductive RenderResult where
  | warnedNoData : RenderResult
  | rendered : List Row → RenderResult
deriving DecidableEq

/-- Embedding of the tail of `main` from the date filter on (src/main.py
lines 193-200): an empty filtered table takes the warning branch and
returns normally; otherwise the dashboard is rendered from the filtered
table. -/
def render_filtered (data : List Row) (s e : Date) : RenderResult :=
  let filtered_data := date_filter data s e
  if filtered_data.isEmpty then RenderResult.warnedNoData
  else RenderResult.rendered filtered_data

/-- One iteration of the loop of `load_selected_data` (src/main.py
lines 105-116). The fetch of emission data (an HTTP call) is a parameter
`fetchE`; `none` models a non-200 answer. The token contributes no table,
exactly as by the falsiness test `if emission_data:` of line 111, when the
fetch fails or yields an empty emission list; otherwise it contributes its
processed table. -/
def token_table (fetchE : String → Option (List EmissionWeek))
    (token_map : String → String) (token_symbol : String) :
    Option (List Row) :=
  match fetchE (token_map token_symbol) with
  | none => none
  | some emission_data =>
      if emission_data.isEmpty then none
      else some (process_token_data emission_data token_symbol)

/-- Embedding of `load_selected_data` (src/main.py lines 96-129): the list
`all_data` of per-token tables collected by the loop, then the emptiness
check of line 124 (`none` models the `st.error` branch, itself a normal
return) and the concatenation and preprocessing of lines 128-129. -/
def load_selected_data (fetchE : String → Option (List EmissionWeek))
    (token_map : String → String) (selected_tokens : List String) :
    Option (List Row) :=
  let all_data := selected_tokens.filterMap (token_table fetchE token_map)
  if all_data.isEmpty then none
  else some (preprocess_data all_data.flatten)

/-- Emission week starting Monday 2024-01-01, one allocation of amount 1
worth 100 USD. -/
def emA : EmissionWeek :=
  ⟨⟨2024, 1, 1, 0, 0, 0⟩, ⟨2024, 1, 7, 23, 59, 59⟩, [⟨1, 100⟩]⟩

/-- Emission week starting Wednesday 2024-01-03 (same ISO week as `emA`,
different timestamps), one allocation of amount 1 worth 100 USD. -/
def emB : EmissionWeek :=
  ⟨⟨2024, 1, 3, 0, 0, 0⟩, ⟨2024, 1, 9, 23, 59, 59⟩, [⟨1, 100⟩]⟩

/-- Emission week with the same period as `emA`, one allocation of amount 2
worth 50 USD. -/
def emD : EmissionWeek :=
  ⟨⟨2024, 1, 1, 0, 0, 0⟩, ⟨2024, 1, 7, 23, 59, 59⟩, [⟨2, 50⟩]⟩

/-- Emission week with the same period as `emA`, one allocation of amount 1
worth 4 USD (below 5 percent of a 104 USD weekly total). -/
def emC : EmissionWeek :=
  ⟨⟨2024, 1, 1, 0, 0, 0⟩, ⟨2024, 1, 7, 23, 59, 59⟩, [⟨1, 4⟩]⟩

/-- Emission week starting Monday 2020-01-06 with one allocation of unlock
value -10 USD. -/
def negA : EmissionWeek :=
  ⟨⟨2020, 1, 6, 0, 0, 0⟩, ⟨2020, 1, 12, 23, 59, 59⟩, [⟨1, -10⟩]⟩

/-- Emission week starting Monday 2020-01-06 with one allocation of unlock
value -90 USD. -/
def negB : EmissionWeek :=
  ⟨⟨2020, 1, 6, 0, 0, 0⟩, ⟨2020, 1, 12, 23, 59, 59⟩, [⟨1, -90⟩]⟩

/-- Emission week starting Monday 2020-01-06 with one allocation of unlock
value 0 USD. -/
def zeroW : EmissionWeek :=
  ⟨⟨2020, 1, 6, 0, 0, 0⟩, ⟨2020, 1, 12, 23, 59, 59⟩, [⟨0, 0⟩]⟩

/-- Two tokens whose emission weeks fall in the same ISO week 2024-W01 but
start at different timestamps, as the real pipeline can produce. -/
def dupData : List Row :=
  process_token_data [emA] "A" ++ process_token_data [emB] "B"

/-- Two tokens sharing one identical emission period, so each week of the
table carries a single distinct `(start_date, end_date)` pair. -/
def goodData : List Row :=
  process_token_data [emA] "A" ++ process_token_data [emD] "B"

/-- Two tokens sharing one identical emission period, token B contributing
4 of a 104 USD weekly total. -/
def smallShareData : List Row :=
  process_token_data [emA] "A" ++ process_token_data [emC] "B"

/-- Two tokens with negative unlock values giving a negative weekly
total. -/
def negData : List Row :=
  process_token_data [negA] "A" ++ process_token_data [negB] "B"

/-- One token whose single week has unlock value 0, so the weekly total is
zero. -/
def zeroData : List Row :=
  process_token_data [zeroW] "A"

/-- Fetch stub answering every token id with an empty emission list. -/
def fetchEmpty : String → Option (List EmissionWeek) := fun _ => some []

/-- Identity token map (symbol used directly as the id). -/
def idTokenMap : String → String := fun s => s

/-- Summing a pointwise sum of two columns over a list splits into two
sums. -/
theorem sum_map_addQ {α : Type} (l : List α) (g h : α → ℚ) :
    (l.map fun x => g x + h x).sum = (l.map g).sum + (l.map h).sum := by
  induction l with
  | nil => simp
  | cons a t ih =>
    simp only [List.map_cons, List.sum_cons, ih]
    ring

/-- Over a duplicate-free list, a sum of indicator terms collapses to a
membership test. -/
theorem sum_map_ite_eqQ {κ : Type} [DecidableEq κ] (l : List κ) (hl : l.Nodup)
    (c : κ) (v : ℚ) :
    (l.map fun k => if c = k then v else 0).sum = if c ∈ l then v else 0 := by
  induction l with
  | nil => simp
  | cons a t ih =>
    rcases List.nodup_cons.mp hl with ⟨ha, ht⟩
    by_cases hca : c = a
    · subst hca
      simp [ha, ih ht]
    · simp [hca, Ne.symm hca, ih ht]

/-- A fiber of a key that does not occur in the list is empty. -/
theorem filter_key_eq_nilQ {α κ : Type} [DecidableEq κ] (key : α → κ)
    (l : List α) (c : κ) (h : c ∉ l.map key) :
    l.filter (fun r => decide (key r = c)) = [] := by
  apply List.filter_eq_nil_iff.mpr
  intro a ha
  simp only [decide_eq_true_eq]
  intro hc
  exact h (hc ▸ List.mem_map_of_mem key ha)

/-- Fiberwise summation: summing a column fiber-by-fiber over the distinct
keys selected by `p` equals summing it over the rows whose key satisfies
`p`. This is the algebra of `groupby(...).agg('sum')`. -/
theorem sum_fiber_eq {α κ : Type} [DecidableEq κ] (key : α → κ) (f : α → ℚ)
    (p : κ → Bool) (l : List α) :
    (((l.map key).dedup.filter p).map
      (fun k => ((l.filter fun r => decide (key r = k)).map f).sum)).sum
    = ((l.filter fun r => p (key r)).map f).sum := by
  induction l with
  | nil => simp
  | cons a t ih =>
    have hS : ∀ k : κ, (((a :: t).filter fun r => decide (key r = k)).map f).sum
        = (if key a = k then f a else 0)
          + ((t.filter fun r => decide (key r = k)).map f).sum := by
      intro k
      by_cases h : key a = k
      · simp [List.filter_cons, h]
      · simp [List.filter_cons, h]
    have hsplit : ∀ (D : List κ), D.Nodup →
        ((D.map fun k => (((a :: t).filter fun r => decide (key r = k)).map f).sum).sum)
        = (if key a ∈ D then f a else 0)
          + ((D.map fun k => ((t.filter fun r => decide (key r = k)).map f).sum).sum) := by
      intro D hD
      calc (D.map fun k => (((a :: t).filter fun r => decide (key r = k)).map f).sum).sum
          = (D.map fun k => (if key a = k then f a else 0)
              + ((t.filter fun r => decide (key r = k)).map f).sum).sum := by
            exact congrArg List.sum (List.map_congr_left fun k _ => hS k)
        _ = (D.map fun k => if key a = k then f a else 0).sum
              + (D.map fun k => ((t.filter fun r => decide (key r = k)).map f).sum).sum :=
            sum_map_addQ D _ _
        _ = (if key a ∈ D then f a else 0)
              + (D.map fun k => ((t.filter fun r => decide (key r = k)).map f).sum).sum := by
            rw [sum_map_ite_eqQ D hD (key a) (f a)]
    have hRHS : (((a :: t).filter fun r => p (key r)).map f).sum
        = (if p (key a) = true then f a else 0)
          + ((t.filter fun r => p (key r)).map f).sum := by
      by_cases hp : p (key a) = true
      · simp [List.filter_cons, hp]
      · simp [List.filter_cons, hp]
    by_cases hmem : key a ∈ t.map key
    · rw [List.map_cons, List.dedup_cons_of_mem hmem]
      rw [hsplit ((t.map key).dedup.filter p) (List.Nodup.filter p (List.nodup_dedup _))]
      rw [ih, hRHS]
      congr 1
      have hiff : key a ∈ (t.map key).dedup.filter p ↔ p (key a) = true := by
        simp [List.mem_filter, List.mem_dedup, hmem]
      by_cases hp : p (key a) = true
      · rw [if_pos (hiff.mpr hp), if_pos hp]
      · rw [if_neg (fun hin => hp (hiff.mp hin)), if_neg hp]
    · rw [List.map_cons, List.dedup_cons_of_not_mem hmem]
      rw [List.filter_cons]
      have hnotin : key a ∉ (t.map key).dedup.filter p := by
        intro hin
        exact hmem (List.mem_dedup.mp (List.mem_filter.mp hin).1)
      by_cases hp : p (key a) = true
      · rw [if_pos hp, List.map_cons, List.sum_cons]
        rw [hS (key a), filter_key_eq_nilQ key t (key a) hmem]
        rw [hsplit ((t.map key).dedup.filter p) (List.Nodup.filter p (List.nodup_dedup _))]
        rw [if_neg hnotin, ih, hRHS, if_pos hp]
        simp
      · rw [if_neg hp]
        rw [hsplit ((t.map key).dedup.filter p) (List.Nodup.filter p (List.nodup_dedup _))]
        rw [if_neg hnotin, ih, hRHS, if_neg hp]

/-- Restricting the grouped table to one week restricts the key list to
that week. -/
theorem groupWT_filter_week (rows : List WTRow) (w : String) :
    (groupWT rows).filter (fun r => decide (r.week = w))
      = (((rows.map wkey).dedup.filter fun k => decide (k.1 = w)).map
          fun k => ({ week := k.1, token := k.2, value_usd := aggVal rows k,
                      amount := aggAmt rows k } : WTRow)) := by
  unfold groupWT
  rw [List.filter_map]
  rfl

/-- Grouping by `(week, token)` preserves the weekly sum of `value_usd`. -/
theorem groupWT_week_value (rows : List WTRow) (w : String) :
    wt_week_sum (groupWT rows) (fun r => r.value_usd) w
      = wt_week_sum rows (fun r => r.value_usd) w := by
  unfold wt_week_sum
  rw [groupWT_filter_week, List.map_map]
  exact sum_fiber_eq wkey (fun r => r.value_usd) (fun k => decide (k.1 = w)) rows

/-- Grouping by `(week, token)` preserves the weekly sum of `amount`. -/
theorem groupWT_week_amount (rows : List WTRow) (w : String) :
    wt_week_sum (groupWT rows) (fun r => r.amount) w
      = wt_week_sum rows (fun r => r.amount) w := by
  unfold wt_week_sum
  rw [groupWT_filter_week, List.map_map]
  exact sum_fiber_eq wkey (fun r => r.amount) (fun k => decide (k.1 = w)) rows

/-- A row-by-row transformation that keeps the week and a column fixed
keeps that column's weekly sums fixed. -/
theorem week_sum_map_rows {α : Type} (l : List α) (wk : α → String)
    (t : α → WTRow) (f : WTRow → ℚ) (g : α → ℚ) (w : String)
    (hw : ∀ r, (t r).week = wk r) (hf : ∀ r, f (t r) = g r) :
    (((l.map t).filter fun r => decide (r.week = w)).map f).sum
      = ((l.filter fun r => decide (wk r = w)).map g).sum := by
  induction l with
  | nil => simp
  | cons a u ih =>
    rw [List.map_cons, List.filter_cons, List.filter_cons, hw a]
    by_cases h : wk a = w
    · simp [h, ih, hf a]
    · simp [h, ih]

/-- The token relabeling keeps the week of a row. -/
theorem relabelToken_week (data : List Row) (r : WTRow) :
    (relabelToken data r).week = r.week := by
  unfold relabelToken
  split <;> rfl

/-- The token relabeling keeps the `value_usd` of a row. -/
theorem relabelToken_value (data : List Row) (r : WTRow) :
    (relabelToken data r).value_usd = r.value_usd := by
  unfold relabelToken
  split <;> rfl

/-- The token relabeling keeps the `amount` of a row. -/
theorem relabelToken_amount (data : List Row) (r : WTRow) :
    (relabelToken data r).amount = r.amount := by
  unfold relabelToken
  split <;> rfl

/-- The weekly `value_usd` sums of `weekly_totals` are the raw weekly
sums of the input table; equivalently, the aggregated weekly total of a
week is the sum over every raw row carrying that week identifier. -/
theorem weekly_value_eq (data : List Row) (w : String) :
    wt_week_sum (weekly_totals data) (fun r => r.value_usd) w
      = raw_week_value data w := by
  unfold weekly_totals
  rw [groupWT_week_value]
  exact week_sum_map_rows data (fun r => r.week) toWT _ (fun r => r.value_usd) w
    (fun r => rfl) (fun r => rfl)

/-- The weekly `amount` sums of `weekly_totals` are the raw weekly sums of
the input table. -/
theorem weekly_amount_eq (data : List Row) (w : String) :
    wt_week_sum (weekly_totals data) (fun r => r.amount) w
      = raw_week_amount data w := by
  unfold weekly_totals
  rw [groupWT_week_amount]
  exact week_sum_map_rows data (fun r => r.week) toWT _ (fun r => r.amount) w
    (fun r => rfl) (fun r => rfl)

/-- The weekly `value_usd` sums of `grouped_data` are the raw weekly sums
of the input table: relabeling and re-grouping both preserve them. -/
theorem grouped_value_eq (data : List Row) (w : String) :
    wt_week_sum (grouped_data data) (fun r => r.value_usd) w
      = raw_week_value data w := by
  unfold grouped_data
  rw [groupWT_week_value]
  unfold relabeled_totals
  have h := week_sum_map_rows (weekly_totals data) (fun r => r.week)
    (relabelToken data) (fun r => r.value_usd) (fun r => r.value_usd) w
    (relabelToken_week data) (relabelToken_value data)
  rw [wt_week_sum, h, ← wt_week_sum, weekly_value_eq]

/-- The weekly `amount` sums of `grouped_data` are the raw weekly sums. -/
theorem grouped_amount_eq (data : List Row) (w : String) :
    wt_week_sum (grouped_data data) (fun r => r.amount) w
      = raw_week_amount data w := by
  unfold grouped_data
  rw [groupWT_week_amount]
  unfold relabeled_totals
  have h := week_sum_map_rows (weekly_totals data) (fun r => r.week)
    (relabelToken data) (fun r => r.amount) (fun r => r.amount) w
    (relabelToken_week data) (relabelToken_amount data)
  rw [wt_week_sum, h, ← wt_week_sum, weekly_amount_eq]

/-- Every week of a grouped table is the week of some input row. -/
theorem mem_groupWT_week {rows : List WTRow} {g : WTRow} (h : g ∈ groupWT rows) :
    ∃ r ∈ rows, r.week = g.week := by
  unfold groupWT at h
  rcases List.mem_map.mp h with ⟨k, hk, hgk⟩
  rcases List.mem_map.mp (List.mem_dedup.mp hk) with ⟨r, hr, hrk⟩
  refine ⟨r, hr, ?_⟩
  rw [← hgk, ← hrk]
  rfl

/-- Every week of `grouped_data` is the week of some row of the input
table. -/
theorem grouped_week_mem {data : List Row} {g : WTRow}
    (h : g ∈ grouped_data data) : ∃ r ∈ data, r.week = g.week := by
  rcases mem_groupWT_week h with ⟨rt, hrt, hrtw⟩
  rcases List.mem_map.mp hrt with ⟨rw0, hrw0, hrel⟩
  have hw0 : rw0.week = g.week := by
    rw [← hrtw, ← hrel, relabelToken_week]
  rcases mem_groupWT_week hrw0 with ⟨p, hp, hpw⟩
  rcases List.mem_map.mp hp with ⟨r, hr, hpr⟩
  refine ⟨r, hr, ?_⟩
  rw [← hw0, ← hpw, ← hpr]
  rfl

/-- A duplicate-free list whose members all equal `d` and that contains
`d` is the singleton `[d]`. -/
theorem eq_singleton_of_forall {α : Type} {l : List α} {d : α}
    (hnd : l.Nodup) (hm : d ∈ l) (hall : ∀ x ∈ l, x = d) : l = [d] := by
  cases l with
  | nil => cases hm
  | cons a t =>
    have ha : a = d := hall a (by simp)
    subst ha
    cases t with
    | nil => rfl
    | cons b u =>
      have hb : b = a := hall b (by simp)
      rcases List.nodup_cons.mp hnd with ⟨hna, _⟩
      exact absurd (hb ▸ (by simp : b ∈ b :: u)) hna

/-- Under unique week dates, the merge on `week` finds exactly one
`dates_data` row for every week present in the table. -/
theorem datesFor_singleton {data : List Row} {w : String}
    (hU : uniqueWeekDates data) (hex : ∃ r ∈ data, r.week = w) :
    ∃ d, datesFor data w = [d] := by
  rcases hex with ⟨r, hr, hw⟩
  refine ⟨(w, r.start_date, r.end_date), ?_⟩
  have hmemD : (w, r.start_date, r.end_date) ∈ dates_data data := by
    apply List.mem_dedup.mpr
    exact hw ▸ List.mem_map_of_mem (fun r => (r.week, r.start_date, r.end_date)) hr
  apply eq_singleton_of_forall
  · exact List.Nodup.filter _ (List.nodup_dedup _)
  · exact List.mem_filter.mpr ⟨hmemD, by simp⟩
  · intro x hx
    rcases List.mem_filter.mp hx with ⟨hxD, hxw⟩
    exact hU x hxD (w, r.start_date, r.end_date) hmemD (of_decide_eq_true hxw)

/-- Weekly sums of the merged table: when every grouped row finds exactly
one dates row, the merge contributes one output row per grouped row and
weekly column sums carry over. -/
theorem flatMap_week_sum (gs : List WTRow)
    (ds : String → List (String × DateTime × DateTime))
    (h1 : ∀ g ∈ gs, ∃ d, ds g.week = [d]) (w : String) (f : Row → ℚ)
    (fg : WTRow → ℚ) (hf : ∀ g d, f (mkFinalRow g d) = fg g) :
    (((gs.flatMap fun g => (ds g.week).map (mkFinalRow g)).filter
        fun r => decide (r.week = w)).map f).sum
      = wt_week_sum gs fg w := by
  induction gs with
  | nil => simp [wt_week_sum]
  | cons g t ih =>
    rcases h1 g (by simp) with ⟨d, hd⟩
    have ht : ∀ g' ∈ t, ∃ d', ds g'.week = [d'] := fun g' h' => h1 g' (by simp [h'])
    rw [List.flatMap_cons, hd, List.filter_append, List.map_append, List.sum_append]
    rw [ih ht]
    unfold wt_week_sum
    rw [List.filter_cons]
    have hgw : (mkFinalRow g d).week = g.week := rfl
    by_cases h : g.week = w
    · simp [List.filter_cons, hgw, h, hf g d, wt_week_sum]
    · simp [List.filter_cons, hgw, h, wt_week_sum]

/-- Key counts of the merged table: when every grouped row finds exactly
one dates row, the number of output rows with a given `(week, token)` key
is the number of grouped rows with that key. -/
theorem flatMap_key_length (gs : List WTRow)
    (ds : String → List (String × DateTime × DateTime))
    (h1 : ∀ g ∈ gs, ∃ d, ds g.week = [d]) (k : String × String) :
    ((gs.flatMap fun g => (ds g.week).map (mkFinalRow g)).filter
        fun r => decide ((r.week, r.token) = k)).length
      = (gs.filter fun g => decide (wkey g = k)).length := by
  induction gs with
  | nil => simp
  | cons g t ih =>
    rcases h1 g (by simp) with ⟨d, hd⟩
    have ht : ∀ g' ∈ t, ∃ d', ds g'.week = [d'] := fun g' h' => h1 g' (by simp [h'])
    rw [List.flatMap_cons, hd, List.filter_append, List.length_append, ih ht]
    have hgk : ((mkFinalRow g d).week, (mkFinalRow g d).token) = wkey g := rfl
    by_cases h : wkey g = k
    · simp [List.filter_cons, hgk, h, Nat.add_comm]
    · simp [List.filter_cons, hgk, h]

/-- A list whose key images are duplicate-free holds at most one row per
key. -/
theorem filter_key_length_le_one {α κ : Type} [DecidableEq κ] (key : α → κ)
    (l : List α) (h : (l.map key).Nodup) (k : κ) :
    (l.filter fun r => decide (key r = k)).length ≤ 1 := by
  induction l with
  | nil => simp
  | cons a t ih =>
    rw [List.map_cons, List.nodup_cons] at h
    rcases h with ⟨hna, hnt⟩
    rw [List.filter_cons]
    by_cases hk : key a = k
    · rw [if_pos (by simp [hk]), filter_key_eq_nilQ key t k (hk ▸ hna)]
      simp
    · rw [if_neg (by simp [hk])]
      exact ih hnt

/-- The key list of a grouped table is the deduplicated key list of its
input, hence duplicate-free. -/
theorem groupWT_map_wkey (rows : List WTRow) :
    (groupWT rows).map wkey = (rows.map wkey).dedup := by
  unfold groupWT
  rw [List.map_map]
  calc ((rows.map wkey).dedup.map (wkey ∘ fun k =>
        ({ week := k.1, token := k.2, value_usd := aggVal rows k,
           amount := aggAmt rows k } : WTRow)))
      = (rows.map wkey).dedup.map id := List.map_congr_left fun k _ => rfl
    _ = (rows.map wkey).dedup := List.map_id _

/-- The key list of `grouped_data` is duplicate-free. -/
theorem grouped_map_wkey_nodup (data : List Row) :
    ((grouped_data data).map wkey).Nodup := by
  unfold grouped_data
  rw [groupWT_map_wkey]
  exact List.nodup_dedup _

/-- C1 (amended): for every input table in which each week identifier
carries a single distinct `(start_date, end_date)` pair, and for every
week, the sum of `value_usd` over the rows of that week in the output of
`preprocess_data` equals the sum of `value_usd` over the rows of that week
in the input table. Without the uniqueness hypothesis the final merge of
src/main.py line 91 duplicates rows, as the counterexample below
shows. -/
theorem weekly_value_sum_preserved (data : List Row) (w : String)
    (hU : uniqueWeekDates data) :
    raw_week_value (preprocess_data data) w = raw_week_value data w := by
  have h1 : ∀ g ∈ grouped_data data, ∃ d, datesFor data g.week = [d] :=
    fun g hg => datesFor_singleton hU (grouped_week_mem hg)
  have h2 := flatMap_week_sum (grouped_data data) (datesFor data) h1 w
    (fun r => r.value_usd) (fun g => g.value_usd) (fun g d => rfl)
  calc raw_week_value (preprocess_data data) w
      = wt_week_sum (grouped_data data) (fun g => g.value_usd) w := h2
    _ = raw_week_value data w := grouped_value_eq data w

/-- Witness for C1 at a concrete table with unique week dates. -/
theorem weekly_value_sum_preserved_witness :
    uniqueWeekDates goodData
      ∧ raw_week_value (preprocess_data goodData) "2024-W01"
          = raw_week_value goodData "2024-W01" :=
  ⟨by decide, weekly_value_sum_preserved goodData "2024-W01" (by decide)⟩

/-- C1 counterexample: two emission weeks of the same ISO week but
different timestamps make the merge duplicate rows; the output weekly sum
is 400 against an input weekly sum of 200, so the claim fails as stated
for every input table. -/
theorem weekly_value_sum_counterexample :
    raw_week_value (preprocess_data dupData) "2024-W01"
      ≠ raw_week_value dupData "2024-W01" := by
  have h1 : weekId ⟨2024, 1, 1, 0, 0, 0⟩ = "2024-W01" := rfl
  have h2 : weekId ⟨2024, 1, 3, 0, 0, 0⟩ = "2024-W01" := rfl
  have hd : [(("2024-W01", "A") : String × String), ("2024-W01", "B")].dedup
      = [("2024-W01", "A"), ("2024-W01", "B")] := by decide
  have hdd : [(("2024-W01", ⟨2024, 1, 1, 0, 0, 0⟩, ⟨2024, 1, 7, 23, 59, 59⟩) :
        String × DateTime × DateTime),
      ("2024-W01", ⟨2024, 1, 3, 0, 0, 0⟩, ⟨2024, 1, 9, 23, 59, 59⟩)].dedup
      = [("2024-W01", ⟨2024, 1, 1, 0, 0, 0⟩, ⟨2024, 1, 7, 23, 59, 59⟩),
         ("2024-W01", ⟨2024, 1, 3, 0, 0, 0⟩, ⟨2024, 1, 9, 23, 59, 59⟩)] := by decide
  norm_num +decide [dupData, emA, emB, process_token_data, h1, h2, hd, hdd,
    raw_week_value, preprocess_data, grouped_data, relabeled_totals,
    weekly_totals, groupWT, toWT, wkey, aggVal, aggAmt, relabelToken,
    relabelsToOther, total_week_value, dates_data, datesFor, mkFinalRow,
    Function.comp, List.filter_cons, List.filter_nil, List.flatMap_cons,
    List.flatMap_nil, List.sum_cons, List.sum_nil]

/-- C6 (amended): for every input table in which each week identifier
carries a single distinct `(start_date, end_date)` pair, the output of
`preprocess_data` holds at most one row per `(week, token)` pair. Without
the uniqueness hypothesis the merge duplicates rows, as the
counterexample below shows. -/
theorem unique_week_token_rows (data : List Row) (hU : uniqueWeekDates data)
    (w t : String) :
    ((preprocess_data data).filter fun r =>
      decide ((r.week, r.token) = (w, t))).length ≤ 1 := by
  have h1 : ∀ g ∈ grouped_data data, ∃ d, datesFor data g.week = [d] :=
    fun g hg => datesFor_singleton hU (grouped_week_mem hg)
  have h2 := flatMap_key_length (grouped_data data) (datesFor data) h1 (w, t)
  calc ((preprocess_data data).filter fun r =>
        decide ((r.week, r.token) = (w, t))).length
      = ((grouped_data data).filter fun g => decide (wkey g = (w, t))).length := h2
    _ ≤ 1 := filter_key_length_le_one wkey (grouped_data data)
        (grouped_map_wkey_nodup data) (w, t)

/-- Witness for C6 at a concrete table with unique week dates. -/
theorem unique_week_token_rows_witness :
    uniqueWeekDates goodData
      ∧ ((preprocess_data goodData).filter fun r =>
          decide ((r.week, r.token) = ("2024-W01", "A"))).length ≤ 1 :=
  ⟨by decide, unique_week_token_rows goodData (by decide) "2024-W01" "A"⟩

/-- C6 counterexample: with two distinct `(start_date, end_date)` pairs in
one ISO week the output holds two rows for the key `(2024-W01, A)`, so the
at-most-one-row claim fails as stated for every input table. -/
theorem week_token_duplicated_counterexample :
    ¬ (((preprocess_data dupData).filter fun r =>
        decide ((r.week, r.token) = ("2024-W01", "A"))).length ≤ 1) := by
  have h1 : weekId ⟨2024, 1, 1, 0, 0, 0⟩ = "2024-W01" := rfl
  have h2 : weekId ⟨2024, 1, 3, 0, 0, 0⟩ = "2024-W01" := rfl
  have hd : [(("2024-W01", "A") : String × String), ("2024-W01", "B")].dedup
      = [("2024-W01", "A"), ("2024-W01", "B")] := by decide
  have hdd : [(("2024-W01", ⟨2024, 1, 1, 0, 0, 0⟩, ⟨2024, 1, 7, 23, 59, 59⟩) :
        String × DateTime × DateTime),
      ("2024-W01", ⟨2024, 1, 3, 0, 0, 0⟩, ⟨2024, 1, 9, 23, 59, 59⟩)].dedup
      = [("2024-W01", ⟨2024, 1, 1, 0, 0, 0⟩, ⟨2024, 1, 7, 23, 59, 59⟩),
         ("2024-W01", ⟨2024, 1, 3, 0, 0, 0⟩, ⟨2024, 1, 9, 23, 59, 59⟩)] := by decide
  norm_num +decide [dupData, emA, emB, process_token_data, h1, h2, hd, hdd,
    preprocess_data, grouped_data, relabeled_totals,
    weekly_totals, groupWT, toWT, wkey, aggVal, aggAmt, relabelToken,
    relabelsToOther, total_week_value, dates_data, datesFor, mkFinalRow,
    Function.comp, List.filter_cons, List.filter_nil, List.flatMap_cons,
    List.flatMap_nil, List.sum_cons, List.sum_nil]

/-- C8 (amended): for every input table in which each week identifier
carries a single distinct `(start_date, end_date)` pair, and for every
week, `preprocess_data` preserves the per-week sum of `amount`. Without
the uniqueness hypothesis the merge duplicates rows, as the
counterexample below shows. -/
theorem weekly_amount_sum_preserved (data : List Row) (w : String)
    (hU : uniqueWeekDates data) :
    raw_week_amount (preprocess_data data) w = raw_week_amount data w := by
  have h1 : ∀ g ∈ grouped_data data, ∃ d, datesFor data g.week = [d] :=
    fun g hg => datesFor_singleton hU (grouped_week_mem hg)
  have h2 := flatMap_week_sum (grouped_data data) (datesFor data) h1 w
    (fun r => r.amount) (fun g => g.amount) (fun g d => rfl)
  calc raw_week_amount (preprocess_data data) w
      = wt_week_sum (grouped_data data) (fun g => g.amount) w := h2
    _ = raw_week_amount data w := grouped_amount_eq data w

/-- Witness for C8 at a concrete table with unique week dates. -/
theorem weekly_amount_sum_preserved_witness :
    uniqueWeekDates goodData
      ∧ raw_week_amount (preprocess_data goodData) "2024-W01"
          = raw_week_amount goodData "2024-W01" :=
  ⟨by decide, weekly_amount_sum_preserved goodData "2024-W01" (by decide)⟩

/-- C8 counterexample: the duplicated merge rows double the weekly
`amount` sum (4 in the output against 2 in the input), so the claim fails
as stated for every input table. -/
theorem weekly_amount_sum_counterexample :
    raw_week_amount (preprocess_data dupData) "2024-W01"
      ≠ raw_week_amount dupData "2024-W01" := by
  have h1 : weekId ⟨2024, 1, 1, 0, 0, 0⟩ = "2024-W01" := rfl
  have h2 : weekId ⟨2024, 1, 3, 0, 0, 0⟩ = "2024-W01" := rfl
  have hd : [(("2024-W01", "A") : String × String), ("2024-W01", "B")].dedup
      = [("2024-W01", "A"), ("2024-W01", "B")] := by decide
  have hdd : [(("2024-W01", ⟨2024, 1, 1, 0, 0, 0⟩, ⟨2024, 1, 7, 23, 59, 59⟩) :
        String × DateTime × DateTime),
      ("2024-W01", ⟨2024, 1, 3, 0, 0, 0⟩, ⟨2024, 1, 9, 23, 59, 59⟩)].dedup
      = [("2024-W01", ⟨2024, 1, 1, 0, 0, 0⟩, ⟨2024, 1, 7, 23, 59, 59⟩),
         ("2024-W01", ⟨2024, 1, 3, 0, 0, 0⟩, ⟨2024, 1, 9, 23, 59, 59⟩)] := by decide
  norm_num +decide [dupData, emA, emB, process_token_data, h1, h2, hd, hdd,
    raw_week_amount, preprocess_data, grouped_data, relabeled_totals,
    weekly_totals, groupWT, toWT, wkey, aggVal, aggAmt, relabelToken,
    relabelsToOther, total_week_value, dates_data, datesFor, mkFinalRow,
    Function.comp, List.filter_cons, List.filter_nil, List.flatMap_cons,
    List.flatMap_nil, List.sum_cons, List.sum_nil]

/-- C2 (amended): for every `(week, token)` group of `weekly_totals` whose
week has a nonnegative total `value_usd`, the relabeling of src/main.py
lines 78-81 turns the token into OTHER exactly when the group's
`value_usd` is strictly below 5 percent of the week's total, and keeps the
original label otherwise. For a negative weekly total the float comparison
`percentage < 5` flips against the claim, as the counterexample below
shows. -/
theorem relabel_iff_below_threshold (data : List Row) (r : WTRow)
    (_hr : r ∈ weekly_totals data)
    (h : 0 ≤ total_week_value data r.week) :
    (relabelToken data r).token
      = if r.value_usd < 5 / 100 * total_week_value data r.week then "OTHER"
        else r.token := by
  unfold relabelToken relabelsToOther
  rcases eq_or_lt_of_le h with hT0 | hTpos
  · rw [← hT0]
    by_cases hv : r.value_usd < 0
    · rw [if_pos rfl, if_pos (decide_eq_true hv), if_pos (by norm_num [hv])]
    · rw [if_pos rfl, if_neg (fun hc => hv (of_decide_eq_true hc)),
        if_neg (by norm_num [hv])]
  · have hT : total_week_value data r.week ≠ 0 := ne_of_gt hTpos
    rw [if_neg hT]
    have hiff : (r.value_usd / total_week_value data r.week * 100 < 5)
        ↔ (r.value_usd < 5 / 100 * total_week_value data r.week) := by
      rw [div_mul_eq_mul_div, div_lt_iff₀ hTpos]
      constructor <;> intro hh <;> nlinarith
    by_cases hv : r.value_usd / total_week_value data r.week * 100 < 5
    · rw [if_pos (decide_eq_true hv), if_pos (hiff.mp hv)]
    · rw [if_neg (fun hc => hv (of_decide_eq_true hc)),
        if_neg (fun hc => hv (hiff.mpr hc))]

/-- Witness for C2: token B holds 4 of a 104 USD weekly total (about 3.8
percent) and is relabeled OTHER. -/
theorem relabel_iff_below_threshold_witness :
    (⟨"2024-W01", "B", 4, 1⟩ : WTRow) ∈ weekly_totals smallShareData
      ∧ 0 ≤ total_week_value smallShareData "2024-W01"
      ∧ (relabelToken smallShareData ⟨"2024-W01", "B", 4, 1⟩).token
          = if (⟨"2024-W01", "B", 4, 1⟩ : WTRow).value_usd
              < 5 / 100 * total_week_value smallShareData
                  (⟨"2024-W01", "B", 4, 1⟩ : WTRow).week then "OTHER"
            else (⟨"2024-W01", "B", 4, 1⟩ : WTRow).token := by
  have h1 : weekId ⟨2024, 1, 1, 0, 0, 0⟩ = "2024-W01" := rfl
  have hd : [(("2024-W01", "A") : String × String), ("2024-W01", "B")].dedup
      = [("2024-W01", "A"), ("2024-W01", "B")] := by decide
  have hr : (⟨"2024-W01", "B", 4, 1⟩ : WTRow) ∈ weekly_totals smallShareData := by
    norm_num +decide [smallShareData, emA, emC, process_token_data, h1, hd,
      weekly_totals, groupWT, toWT, wkey, aggVal, aggAmt,
      List.filter_cons, List.filter_nil]
  have hT : 0 ≤ total_week_value smallShareData "2024-W01" := by
    norm_num +decide [smallShareData, emA, emC, process_token_data, h1, hd,
      total_week_value, weekly_totals, groupWT, toWT, wkey, aggVal, aggAmt,
      List.filter_cons, List.filter_nil]
  exact ⟨hr, hT, relabel_iff_below_threshold smallShareData _ hr hT⟩

/-- C2 counterexample: with weekly total -100, token A's group value -10
is strictly below 5 percent of the total (which is -5), yet its float
percentage is 10 and the row keeps the label A, so the claim fails as
stated for every input table. -/
theorem relabel_negative_total_counterexample :
    (⟨"2020-W02", "A", -10, 1⟩ : WTRow) ∈ weekly_totals negData
      ∧ ((-10 : ℚ)) < 5 / 100 * total_week_value negData "2020-W02"
      ∧ (relabelToken negData ⟨"2020-W02", "A", -10, 1⟩).token = "A" := by
  have h1 : weekId ⟨2020, 1, 6, 0, 0, 0⟩ = "2020-W02" := rfl
  have hd : [(("2020-W02", "A") : String × String), ("2020-W02", "B")].dedup
      = [("2020-W02", "A"), ("2020-W02", "B")] := by decide
  refine ⟨?_, ?_, ?_⟩ <;>
    norm_num +decide [negData, negA, negB, process_token_data, h1, hd,
      weekly_totals, groupWT, toWT, wkey, aggVal, aggAmt, relabelToken,
      relabelsToOther, total_week_value,
      List.filter_cons, List.filter_nil]

/-- C3 (amended): for every week of the table whose total `value_usd` is
nonzero, the `percentage` column of src/main.py line 77 sums to exactly
100 over the `(week, token)` groups of that week. For a zero weekly total
the percentages are undefined (NaN or infinite floats; junk rationals
here) and do not sum to 100, as the counterexample below shows. -/
theorem percentages_sum_to_100 (data : List Row) (w : String)
    (h : total_week_value data w ≠ 0) :
    week_pct_sum data w = 100 := by
  unfold week_pct_sum
  have hcong : ∀ r ∈ (weekly_totals data).filter (fun r => decide (r.week = w)),
      percentage data r = r.value_usd * (100 / total_week_value data w) := by
    intro r hr
    have hwr : r.week = w := of_decide_eq_true (List.mem_filter.mp hr).2
    unfold percentage
    rw [hwr, div_mul_eq_mul_div, mul_div_assoc]
  rw [List.map_congr_left hcong, List.sum_map_mul_right]
  have hsum : (((weekly_totals data).filter fun r => decide (r.week = w)).map
      (fun r => r.value_usd)).sum = total_week_value data w := rfl
  rw [hsum, mul_comm, div_mul_cancel₀ _ h]

/-- Witness for C3 at a concrete table with weekly total 150. -/
theorem percentages_sum_to_100_witness :
    total_week_value goodData "2024-W01" ≠ 0
      ∧ week_pct_sum goodData "2024-W01" = 100 := by
  have h1 : weekId ⟨2024, 1, 1, 0, 0, 0⟩ = "2024-W01" := rfl
  have hd : [(("2024-W01", "A") : String × String), ("2024-W01", "B")].dedup
      = [("2024-W01", "A"), ("2024-W01", "B")] := by decide
  have hT : total_week_value goodData "2024-W01" ≠ 0 := by
    norm_num +decide [goodData, emA, emD, process_token_data, h1, hd,
      total_week_value, weekly_totals, groupWT, toWT, wkey, aggVal, aggAmt,
      List.filter_cons, List.filter_nil]
  exact ⟨hT, percentages_sum_to_100 goodData "2024-W01" hT⟩

/-- C3 counterexample: a week present in the table whose only unlock value
is 0 has weekly total 0; its percentage column does not sum to 100 (the
float column holds NaN there), so the claim fails as stated for every week
of every input table. -/
theorem percentages_zero_total_counterexample :
    "2020-W02" ∈ (weekly_totals zeroData).map (fun r => r.week)
      ∧ week_pct_sum zeroData "2020-W02" ≠ 100 := by
  have h1 : weekId ⟨2020, 1, 6, 0, 0, 0⟩ = "2020-W02" := rfl
  have hd : [(("2020-W02", "A") : String × String)].dedup
      = [("2020-W02", "A")] := by decide
  refine ⟨?_, ?_⟩ <;>
    norm_num +decide [zeroData, zeroW, process_token_data, h1, hd,
      week_pct_sum, percentage, total_week_value, weekly_totals, groupWT,
      toWT, wkey, aggVal, aggAmt, List.filter_cons, List.filter_nil]

/-- C4: when the selected date range matches no rows of the processed
table, the date-range filter of `main` produces an empty table and the
program takes the warning branch (`st.warning` followed by a normal
return) instead of raising. -/
theorem empty_range_warning (data : List Row) (s e : Date)
    (h : ∀ r ∈ data, inRange s e r = false) :
    date_filter data s e = []
      ∧ render_filtered data s e = RenderResult.warnedNoData := by
  have hf : date_filter data s e = [] := by
    apply List.filter_eq_nil_iff.mpr
    intro a ha
    simp [h a ha]
  refine ⟨hf, ?_⟩
  simp [render_filtered, hf]

/-- Witness for C4: a range ending before every week of the table. -/
theorem empty_range_warning_witness :
    (∀ r ∈ goodData, inRange ⟨2023, 1, 1⟩ ⟨2023, 1, 1⟩ r = false)
      ∧ (date_filter goodData ⟨2023, 1, 1⟩ ⟨2023, 1, 1⟩ = []
          ∧ render_filtered goodData ⟨2023, 1, 1⟩ ⟨2023, 1, 1⟩
              = RenderResult.warnedNoData) :=
  ⟨by decide, empty_range_warning goodData ⟨2023, 1, 1⟩ ⟨2023, 1, 1⟩ (by decide)⟩

/-- C5: a selected token whose emission data is empty contributes no rows
to the combined table and causes no failure; the remaining tokens are
processed exactly as if the token had not been selected. -/
theorem empty_emission_excluded (fetchE : String → Option (List EmissionWeek))
    (token_map : String → String) (l1 l2 : List String) (t : String)
    (h : fetchE (token_map t) = some []) :
    load_selected_data fetchE token_map (l1 ++ t :: l2)
      = load_selected_data fetchE token_map (l1 ++ l2) := by
  have hft : token_table fetchE token_map t = none := by
    unfold token_table
    rw [h]
    rfl
  unfold load_selected_data
  rw [List.filterMap_append, List.filterMap_append, List.filterMap_cons, hft]

/-- Witness for C5: one selected token answered with an empty emission
list. -/
theorem empty_emission_excluded_witness :
    fetchEmpty (idTokenMap "X") = some []
      ∧ load_selected_data fetchEmpty idTokenMap ([] ++ "X" :: [])
          = load_selected_data fetchEmpty idTokenMap ([] ++ []) :=
  ⟨rfl, empty_emission_excluded fetchEmpty idTokenMap [] [] "X" rfl⟩

/-- C7: `process_token_data` flattens the nested API data one-to-one: the
output has exactly one row per allocation per week, and a row appears in
the output exactly when some week and allocation of the input produce it,
with token, week identifier, dates, amount and value taken from them. -/
theorem process_token_data_flattens (emission_data : List EmissionWeek)
    (sym : String) :
    (process_token_data emission_data sym).length
        = (emission_data.map fun wk => wk.allocations.length).sum
      ∧ ∀ r : Row, r ∈ process_token_data emission_data sym
          ↔ ∃ wk ∈ emission_data, ∃ a ∈ wk.allocations,
              r = { token := sym, week := weekId wk.startDate,
                    start_date := wk.startDate, end_date := wk.endDate,
                    amount := a.unlockAmount, value_usd := a.unlockValue } := by
  constructor
  · unfold process_token_data
    rw [List.length_flatMap]
    exact congrArg List.sum
      (List.map_congr_left fun wk _ => by simp [Function.comp])
  · intro r
    unfold process_token_data
    simp only [List.mem_flatMap, List.mem_map]
    constructor
    · rintro ⟨wk, hwk, a, ha, hra⟩
      exact ⟨wk, hwk, a, ha, hra.symm⟩
    · rintro ⟨wk, hwk, a, ha, hra⟩
      exact ⟨wk, hwk, a, ha, hra.symm⟩

/-- C9: the week identifier of a produced row is a function of its start
timestamp alone (the `%Y-W%V` rendering `weekId`); the weekly aggregation
keys on that string, so any rows whose start dates render equally fall
into one weekly bucket; and two concrete timestamps differing by two days
render to the same identifier 2024-W01, whose bucket then sums both
tokens' values. -/
theorem week_id_from_start_date :
    (∀ (emission_data : List EmissionWeek) (sym : String) (r : Row),
        r ∈ process_token_data emission_data sym → r.week = weekId r.start_date)
      ∧ (∀ (data : List Row) (w : String),
          total_week_value data w = raw_week_value data w)
      ∧ ((⟨2024, 1, 1, 0, 0, 0⟩ : DateTime) ≠ ⟨2024, 1, 3, 0, 0, 0⟩
          ∧ weekId ⟨2024, 1, 1, 0, 0, 0⟩ = "2024-W01"
          ∧ weekId ⟨2024, 1, 3, 0, 0, 0⟩ = "2024-W01"
          ∧ raw_week_value dupData "2024-W01" = 200) := by
  refine ⟨?_, ?_, by decide, rfl, rfl, ?_⟩
  · intro ed sym r hr
    unfold process_token_data at hr
    rcases List.mem_flatMap.mp hr with ⟨wk, hwk, hrm⟩
    rcases List.mem_map.mp hrm with ⟨a, ha, hra⟩
    rw [← hra]
  · intro data w
    exact weekly_value_eq data w
  · have h1 : weekId ⟨2024, 1, 1, 0, 0, 0⟩ = "2024-W01" := rfl
    have h2 : weekId ⟨2024, 1, 3, 0, 0, 0⟩ = "2024-W01" := rfl
    norm_num +decide [dupData, emA, emB, process_token_data, h1, h2,
      raw_week_value, List.filter_cons, List.filter_nil]

/-- Witness for C9 at a concrete produced row. -/
theorem week_id_from_start_date_witness :
    (⟨"A", "2024-W01", ⟨2024, 1, 1, 0, 0, 0⟩, ⟨2024, 1, 7, 23, 59, 59⟩, 1, 100⟩ : Row)
        ∈ process_token_data [emA] "A"
      ∧ (⟨"A", "2024-W01", ⟨2024, 1, 1, 0, 0, 0⟩, ⟨2024, 1, 7, 23, 59, 59⟩, 1, 100⟩ : Row).week
          = weekId (⟨"A", "2024-W01", ⟨2024, 1, 1, 0, 0, 0⟩,
              ⟨2024, 1, 7, 23, 59, 59⟩, 1, 100⟩ : Row).start_date := by
  have hm : (⟨"A", "2024-W01", ⟨2024, 1, 1, 0, 0, 0⟩,
      ⟨2024, 1, 7, 23, 59, 59⟩, 1, 100⟩ : Row) ∈ process_token_data [emA] "A" := by
    have h1 : weekId ⟨2024, 1, 1, 0, 0, 0⟩ = "2024-W01" := rfl
    norm_num +decide [emA, process_token_data, h1]
  exact ⟨hm, week_id_from_start_date.1 [emA] "A" _ hm⟩

/-- C10: the date-range filter keeps exactly the rows whose week lies
entirely inside the selected range: the row's start date is on or after
the selected start and its end date is on or before the selected end; any
row violating either bound, in particular one only partially overlapping
the range, is excluded. -/
theorem date_filter_containment (data : List Row) (s e : Date) (r : Row) :
    r ∈ date_filter data s e
      ↔ r ∈ data ∧ dateLeP s (toDate r.start_date)
          ∧ dateLeP (toDate r.end_date) e := by
  unfold date_filter inRange
  rw [List.mem_filter]
  simp [and_assoc]

end Unlocks
